import Mathlib

/-!
Verification of the retrieval-augmented transcription pipeline of the
lecture-assistant backend: a shallow embedding of the chunker, the
embedding service, the vector store and the background processing /
recovery logic, together with theorems settling the specified behaviour.

Python strings are modelled as Lean `String` (lists of characters);
float timestamps and scores are modelled as exact rationals (`Rat`);
Python exceptions are modelled with `Except`/`Option`; external
collaborators (the embedding model, the vector database) are oracles
passed as function parameters.
-/

namespace AiHelp

/-! ## Character classes and Python string primitives -/

/-- The whitespace class used by Python `str.strip`, `str.split()` and the
regex `\s`. -/
def pyWs (c : Char) : Bool :=
  c == ' ' || c == '\t' || c == '\n' || c == '\r' || c == '\x0b' || c == '\x0c'

/-- The word-character class `\w` of `re.findall(r'\b\w+\b', ...)`
(`ChunkerService._count_words`), restricted to its ASCII fragment.
Universal theorems are stated over an arbitrary class `W` disjoint from
whitespace, so they cover the full Unicode class as well. -/
def wordChar (c : Char) : Bool :=
  c.isAlphanum || c == '_'

/-- Word counter core: counts the starts of maximal runs of `W`-characters;
`prevW` records whether the previous character was a word character. -/
def countWordsAux (W : Char → Bool) : List Char → Bool → Nat
  | [], _ => 0
  | c :: rest, prevW =>
    (if W c && !prevW then 1 else 0) + countWordsAux W rest (W c)

/-- Embeds `ChunkerService._count_words`:
`len(re.findall(r'\b\w+\b', text, re.UNICODE))`, i.e. the number of maximal
runs of word characters. -/
def countWords (W : Char → Bool) (s : String) : Nat :=
  countWordsAux W s.data false

/-- Trailing-whitespace removal (helper for `pyStrip`). -/
def dropTrailingWs (l : List Char) : List Char :=
  (l.reverse.dropWhile pyWs).reverse

/-- Embeds Python `str.strip()`. -/
def pyStrip (s : String) : String :=
  ⟨dropTrailingWs (s.data.dropWhile pyWs)⟩

/-- Embeds `" ".join(texts)`. -/
def joinSp : List String → String
  | [] => ""
  | [t] => t
  | t :: ts => t ++ " " ++ joinSp ts

/-- Embeds Python `l[-k:]` (note: for `k = 0` this is the whole list). -/
def pyTakeLast {α : Type} (k : Nat) (l : List α) : List α :=
  if k = 0 then l else l.drop (l.length - k)

/-- Core of Python `str.split()` (split on whitespace runs, dropping empty
pieces); `acc` holds the current word reversed. -/
def pySplitWsGo : List Char → List Char → List (List Char)
  | [], acc => if acc.isEmpty then [] else [acc.reverse]
  | c :: rest, acc =>
    if pyWs c then
      if acc.isEmpty then pySplitWsGo rest [] else acc.reverse :: pySplitWsGo rest []
    else
      pySplitWsGo rest (c :: acc)

/-- Embeds Python `str.split()` with no separator argument. -/
def pySplitWs (s : String) : List String :=
  (pySplitWsGo s.data []).map (fun l => ⟨l⟩)

/-! ## Chunker data model (`chunker_service.py`) -/

/-- A transcript segment `{start, end, text}` as produced by the ASR engine
(`end` is named `stop` because `end` is a Lean keyword). -/
structure Segment where
  start : Rat
  stop : Rat
  text : String
deriving DecidableEq, Inhabited

/-- An element of `current_chunk_segments` inside
`ChunkerService.chunk_segments`: original index, stripped text, timestamps. -/
structure CSeg where
  index : Nat
  text : String
  start : Rat
  stop : Rat
deriving DecidableEq, Inhabited

/-- A retrieval chunk as returned by `ChunkerService.chunk_segments`. -/
structure Chunk where
  text : String
  start_time : Rat
  end_time : Rat
  segment_indices : List Nat
deriving DecidableEq, Inhabited

/-- Embeds `ChunkerService._create_chunk`. -/
def createChunk (cur : List CSeg) : Chunk :=
  { text := joinSp (cur.map CSeg.text)
    start_time := (cur.headD default).start
    end_time := (cur.getLastD default).stop
    segment_indices := cur.map CSeg.index }

/-- Backward walk of `ChunkerService._get_overlap_segments`: accumulate
segments from the end of the finalized chunk while the running word count
stays within the overlap budget. -/
def overlapGo (W : Char → Bool) (ov : Nat) : List CSeg → Nat → List CSeg → List CSeg
  | [], _, acc => acc
  | s :: rest, ow, acc =>
    let sw := countWords W s.text
    if ow + sw ≤ ov then overlapGo W ov rest (ow + sw) (s :: acc) else acc

/-- Embeds `ChunkerService._get_overlap_segments`. -/
def getOverlapSegments (W : Char → Bool) (ov : Nat) (cur : List CSeg) : List CSeg :=
  overlapGo W ov cur.reverse 0 []

/-- Main scan of `ChunkerService.chunk_segments`: `pending` is the remaining
`enumerate(segments)` tail, `cur` is `current_chunk_segments` and `cw` is
`current_word_count`. -/
def chunkLoop (W : Char → Bool) (cs ov : Nat) (segs : List Segment) :
    List (Nat × Segment) → List CSeg → Nat → List Chunk
  | [], cur, _ => if cur.isEmpty then [] else [createChunk cur]
  | (i, seg) :: rest, cur, cw =>
    let st := pyStrip seg.text
    if st = "" then
      chunkLoop W cs ov segs rest cur cw
    else
      let sw := countWords W st
      if cs < cw + sw ∧ ¬ cur.isEmpty then
        let ovSegs := getOverlapSegments W ov cur
        let cwq := (ovSegs.map (fun s => countWords W ((segs.getD s.index default).text))).sum
        createChunk cur ::
          chunkLoop W cs ov segs rest (ovSegs ++ [⟨i, st, seg.start, seg.stop⟩]) (cwq + sw)
      else
        chunkLoop W cs ov segs rest (cur ++ [⟨i, st, seg.start, seg.stop⟩]) (cw + sw)

/-- Embeds `ChunkerService.chunk_segments` with word class `W`, chunk size
`cs` (words) and overlap `ov` (words). -/
def chunkSegments (W : Char → Bool) (cs ov : Nat) (segs : List Segment) : List Chunk :=
  if segs.isEmpty then [] else chunkLoop W cs ov segs segs.enum [] 0

/-! ## Plain-text chunking (`ChunkerService.chunk_text`) -/

/-- Whether a character ends a sentence (the `[.!?]` class of the split
regex in `chunk_text`). -/
def sentenceEnd (c : Char) : Bool :=
  c == '.' || c == '!' || c == '?'

/-- Whether the next character is whitespace (the lookahead for `\s+`). -/
def headIsWs : List Char → Bool
  | [] => false
  | c :: _ => pyWs c

/-- Embeds `re.split(r'(?<=[.!?])\s+', text)`: a split point sits after a
sentence-ending character followed by whitespace; the whitespace run is
consumed. `acc` is the current sentence reversed; `skipping` is true while
consuming the whitespace run after a split. -/
def splitSentencesGo : List Char → List Char → Bool → List (List Char)
  | [], acc, _ => [acc.reverse]
  | c :: rest, acc, skipping =>
    if skipping && pyWs c then
      splitSentencesGo rest acc true
    else if sentenceEnd c && headIsWs rest then
      (acc.reverse ++ [c]) :: splitSentencesGo rest [] true
    else
      splitSentencesGo rest (c :: acc) false

/-- The sentence split of `ChunkerService.chunk_text`. -/
def splitSentences (text : String) : List String :=
  (splitSentencesGo text.data [] false).map (fun l => ⟨l⟩)

/-- Main loop of `ChunkerService.chunk_text`: `cur` is `current_chunk`
(the pieces later joined with spaces) and `cw` is `current_words`. -/
def chunkTextGo (W : Char → Bool) (cs ov : Nat) :
    List String → List String → Nat → List String
  | [], cur, _ => if cur.isEmpty then [] else [joinSp cur]
  | s :: rest, cur, cw =>
    let sw := countWords W s
    if cs < cw + sw ∧ ¬ cur.isEmpty then
      let ovWords := pyTakeLast ov (pySplitWs (joinSp cur))
      let ncur := if ovWords.isEmpty then [] else [joinSp ovWords]
      joinSp cur :: chunkTextGo W cs ov rest (ncur ++ [s]) (ovWords.length + sw)
    else
      chunkTextGo W cs ov rest (cur ++ [s]) (cw + sw)

/-- Embeds `ChunkerService.chunk_text(text, preserve_sentences)`: sentence
split (when requested), then greedy coalescing under the word budget `cs`
with a word-level overlap of `ov`. -/
def chunkText (W : Char → Bool) (cs ov : Nat) (text : String) (preserve : Bool) :
    List String :=
  if text = "" then []
  else
    chunkTextGo W cs ov (if preserve then splitSentences text else [text]) [] 0

/-! ## Embedding service (`embedding_service.py`) -/

/-- Embeds `EmbeddingService.embed` on a list input: the deterministic
embedding model is the oracle `model`, applied pointwise (the empty-input
guard of the Python code is kept). -/
def embed (model : String → List Rat) (texts : List String) : List (List Rat) :=
  if texts.isEmpty then [] else texts.map model

/-- Batch loop of `EmbeddingService.embed_documents`; `bsPred` is
`batch_size - 1`, so each round takes `bsPred + 1` documents. -/
def embedDocsGo (model : String → List Rat) (bsPred : Nat) :
    List String → List (List Rat)
  | [] => []
  | d :: ds =>
    embed model (d :: ds.take bsPred) ++ embedDocsGo model bsPred (ds.drop bsPred)
termination_by l => l.length
decreasing_by
  simp only [List.length_cons, List.length_drop]
  omega

/-- Embeds `EmbeddingService.embed_documents(documents, batch_size)`.
`batch_size = 0` makes Python `range(0, n, 0)` raise `ValueError`, modelled
as `Except.error`. -/
def embedDocuments (model : String → List Rat) (batchSize : Nat)
    (docs : List String) : Except String (List (List Rat)) :=
  if batchSize = 0 then Except.error "range() arg 3 must not be zero"
  else Except.ok (embedDocsGo model (batchSize - 1) docs)

/-- Specification-side reference for C4: a single unbatched `embed` call on
the whole document list. -/
def embedUnbatched (model : String → List Rat) (docs : List String) :
    List (List Rat) :=
  embed model docs

/-! ## Vector store (`vector_store.py`) -/

/-- Embeds `VectorStore._collection_name`:
`f"lecture_{lecture_id.replace('-', '_')}"`. -/
def collectionName (lectureId : String) : String :=
  "lecture_" ++ ⟨lectureId.data.map (fun c => if c = '-' then '_' else c)⟩

/-- One nearest-neighbour hit as returned by the vector database: document
text, stored metadata timestamps, and the L2 distance of the query. -/
structure Hit where
  doc : String
  start_time : Rat
  end_time : Rat
  dist : Rat
deriving DecidableEq, Inhabited

/-- A scored search result `{text, start_time, end_time, score}`. -/
structure ScoredChunk where
  text : String
  start_time : Rat
  end_time : Rat
  score : Rat
deriving DecidableEq, Inhabited

/-- Python `round(x)` (round half to even), idealized over exact rationals. -/
def roundHalfEven (q : Rat) : Int :=
  let f := q.floor
  let r := q - f
  if r < 1/2 then f
  else if 1/2 < r then f + 1
  else if f % 2 = 0 then f else f + 1

/-- Python `round(x, 3)` over exact rationals. -/
def round3 (q : Rat) : Rat :=
  (roundHalfEven (q * 1000) : Rat) / 1000

/-- Insert into a list sorted by score descending, after all elements with
an equal or larger score (matching the stability of Python `list.sort`). -/
def insertDesc (x : ScoredChunk) : List ScoredChunk → List ScoredChunk
  | [] => [x]
  | y :: ys => if y.score ≤ x.score then x :: y :: ys else y :: insertDesc x ys

/-- Embeds `chunks.sort(key=lambda x: x["score"], reverse=True)`: the stable
sort by score descending. -/
def sortDesc : List ScoredChunk → List ScoredChunk
  | [] => []
  | x :: xs => insertDesc x (sortDesc xs)

/-- Converts a raw hit to a result: score `1 - distance/2`, threshold check,
score rounded to 3 decimals for the stored field (the loop body of
`VectorStore.search` and `VectorStore.search_all_lectures`). -/
def scoreHit (minScore : Rat) (h : Hit) : Option ScoredChunk :=
  if minScore ≤ 1 - h.dist / 2 then
    some ⟨h.doc, h.start_time, h.end_time, round3 (1 - h.dist / 2)⟩
  else none

/-- Result post-processing of `VectorStore.search`: threshold filter, then
sort by score descending. -/
def processHits (minScore : Rat) (hits : List Hit) : List ScoredChunk :=
  sortDesc (hits.filterMap (scoreHit minScore))

/-- Side effects of the search functions that the claims talk about:
`client.get_collection`, `embedding_service.embed_query`, and
`collection.query`. -/
inductive Effect where
  | probe (name : String)
  | embedQ (query : String)
  | runQuery (name : String)
deriving DecidableEq

/-- Embeds `VectorStore.search` with an effect log. `colls` is the set of
existing collection names (a missing one makes `get_collection` raise the
`ValueError` the code turns into `[]`); `queryFn name topK` is the oracle
for the nearest-neighbour query of the embedded query against collection
`name` restricted to `topK` candidates. -/
def searchE (colls : List String) (queryFn : String → Nat → List Hit)
    (lectureId query : String) (topK : Nat) (minScore : Rat) :
    List ScoredChunk × List Effect :=
  let name := collectionName lectureId
  if name ∈ colls then
    (processHits minScore (queryFn name topK),
     [Effect.probe name, Effect.embedQ query, Effect.runQuery name])
  else
    ([], [Effect.probe name])

/-- Per-lecture fan-out loop of `VectorStore.search_all_lectures`: lectures
whose collection is missing are skipped, lectures with no qualifying chunk
are omitted, and (unlike `search`) the chunks are not re-sorted. -/
def searchAllGo (colls : List String) (queryFn : String → Nat → List Hit)
    (topK : Nat) (minScore : Rat) :
    List String → List (String × List ScoredChunk) × List Effect
  | [] => ([], [])
  | lid :: rest =>
    let name := collectionName lid
    let tail := searchAllGo colls queryFn topK minScore rest
    if name ∈ colls then
      let chunks := (queryFn name topK).filterMap (scoreHit minScore)
      (if chunks.isEmpty then tail.1 else (lid, chunks) :: tail.1,
       Effect.probe name :: Effect.runQuery name :: tail.2)
    else
      (tail.1, Effect.probe name :: tail.2)

/-- Embeds `VectorStore.search_all_lectures` with an effect log: the guard
`if not lecture_ids or not query.strip(): return []` runs before the query
is embedded or any collection is probed. -/
def searchAllE (colls : List String) (queryFn : String → Nat → List Hit)
    (lectureIds : List String) (query : String) (topK : Nat) (minScore : Rat) :
    List (String × List ScoredChunk) × List Effect :=
  if lectureIds.isEmpty ∨ pyStrip query = "" then ([], [])
  else
    let r := searchAllGo colls queryFn topK minScore lectureIds
    (r.1, Effect.embedQ query :: r.2)

/-- Embeds `VectorStore.delete_lecture` over the collection store:
`client.delete_collection` raises `ValueError` when the collection is
absent, which the code catches and converts to `False`. Returns the flag
and the updated store. -/
def deleteLecture (colls : List String) (lectureId : String) :
    Bool × List String :=
  let name := collectionName lectureId
  if name ∈ colls then (true, colls.erase name) else (false, colls)

/-! ## Background processing pipeline (`routers/lectures.py`) -/

/-- Outcome of the `asyncio.wait_for(asr_service.transcribe(...))` call:
timeout, an exception, or a transcription result. -/
inductive TrOutcome where
  | timeout
  | failed (msg : String)
  | success (segments : List Segment) (language : Option String) (duration : Rat)
deriving DecidableEq

/-- Outcomes of the steps of one run of `process_lecture_transcription`;
`save` is `storage_service.save_transcript`, `index` is
`vector_store.index_lecture` (`Except.error e` models the step raising). -/
structure PipelineEnv where
  transcribe : TrOutcome
  save : Except String Unit
  index : Except String Unit

/-- The lecture record fields the pipeline writes. -/
structure LectureState where
  status : String
  error : Option String
  processing_progress : Option Rat
  has_transcript : Bool
  language : Option String
  duration : Option Rat
  savedTranscript : Option (List Segment)
deriving DecidableEq, Inhabited

/-- A freshly uploaded lecture row (status `pending`, nothing stored). -/
def pendingLecture : LectureState :=
  { status := "pending", error := none, processing_progress := none
    has_transcript := false, language := none, duration := none
    savedTranscript := none }

/-- The hard wall-clock ceiling of the transcription step, in seconds
(`timeout=10800.0`, i.e. 3 hours). -/
def transcriptionTimeoutSecs : Rat := 10800

/-- The error message stored on transcription timeout (the Russian string
from `process_lecture_transcription`). -/
def timeoutMsg : String :=
  "Превышено время ожидания транскрибации (3 часа). Файл слишком большой или сервер перегружен."

/-- Embeds the control flow of `process_lecture_transcription`: returns the
final lecture record together with the exception escaping the background
task, if any. Timeout and transcription exceptions are caught (the task
returns after storing status `failed` and the error); the post-completion
`save_transcript`/`index_lecture` calls sit outside the `try`, so an error
there escapes. -/
def processLecture (env : PipelineEnv) (st : LectureState) :
    LectureState × Option String :=
  let st1 := { st with status := "processing" }
  match env.transcribe with
  | TrOutcome.timeout =>
    ({ st1 with status := "failed", error := some timeoutMsg }, none)
  | TrOutcome.failed e =>
    ({ st1 with status := "failed", error := some e }, none)
  | TrOutcome.success segs lang dur =>
    match env.save with
    | Except.error e => (st1, some e)
    | Except.ok _ =>
      let st2 := { st1 with savedTranscript := some segs, has_transcript := true }
      let st3 := { st2 with
        status := "completed", language := lang, duration := some dur
        processing_progress := none, has_transcript := true }
      match env.index with
      | Except.error e => (st3, some e)
      | Except.ok _ => (st3, none)

/-! ## Crash recovery (`main.py::_recover_incomplete_lectures`) -/

/-- A lecture row as seen by the recovery scan. -/
structure RecLecture where
  id : String
  status : String
  audio_path : Option String
  language : Option String
deriving DecidableEq

/-- What recovery decides for one lecture: mark it failed with an error, or
restart `process_lecture_transcription` from the beginning. -/
inductive RecAction where
  | markFailed (err : String)
  | restartTranscription (audioPath : String) (language : Option String)
deriving DecidableEq

/-- The Python truthiness test `if not audio_path` (`None` or `""`). -/
def noAudioPath : Option String → Bool
  | none => true
  | some p => p == ""

/-- Per-lecture branch of `_recover_incomplete_lectures`; `fs` is the set
of paths that exist on disk (`Path(audio_path).exists()`). -/
def recoverOne (fs : List String) (l : RecLecture) : RecAction :=
  match l.audio_path with
  | none => RecAction.markFailed "Audio file path missing"
  | some p =>
    if p = "" then RecAction.markFailed "Audio file path missing"
    else if p ∈ fs then RecAction.restartTranscription p l.language
    else RecAction.markFailed ("Audio file not found: " ++ p)

/-- Embeds `_recover_incomplete_lectures`: the scan handles exactly the
lectures with status `pending` or `processing`
(`storage_service.get_incomplete_lectures`). -/
def recoverIncomplete (fs : List String) (all : List RecLecture) :
    List (String × RecAction) :=
  (all.filter (fun l => l.status = "pending" ∨ l.status = "processing")).map
    (fun l => (l.id, recoverOne fs l))

/-! ## Substring containment (for error-message claims) -/

/-- Whether `n` is a leading subsequence of the second list. -/
def leadMatch : List Char → List Char → Bool
  | [], _ => true
  | _ :: _, [] => false
  | n :: ns, h :: hs => n == h && leadMatch ns hs

/-- Whether `needle` occurs contiguously in the list. -/
def hasSub (needle : List Char) : List Char → Bool
  | [] => leadMatch needle []
  | h :: hs => leadMatch needle (h :: hs) || hasSub needle hs

/-- Substring containment on strings (Python `needle in hay`). -/
def containsSub (needle hay : String) : Bool :=
  hasSub needle.data hay.data

/-! ## Concrete instances used by counterexamples and witnesses -/

/-- The segment list of the C1 scenario. -/
def scenarioSegs : List Segment :=
  [⟨0, 5, "hello world"⟩, ⟨5, 10, ""⟩, ⟨10, 15, "test"⟩]

/-- Counterexample input for C2: word counts 5, 5, 6, 1 with chunk size 10
and overlap 5 make the overlap-seeded middle chunk 11 words long. -/
def cexSegs : List Segment :=
  [⟨0, 1, "a b c d e"⟩, ⟨1, 2, "f g h i j"⟩, ⟨2, 3, "k l m n o p"⟩, ⟨3, 4, "q"⟩]

/-- Pipeline outcomes where transcription and persistence succeed but the
post-completion indexing step raises. -/
def envIndexFail : PipelineEnv :=
  { transcribe := TrOutcome.success [] none 0
    save := Except.ok ()
    index := Except.error "index boom" }

/-- Pipeline outcomes where the transcription step times out. -/
def envTimeout : PipelineEnv :=
  { transcribe := TrOutcome.timeout, save := Except.ok (), index := Except.ok () }

/-! ## Measures on chunks (used to state the size bounds) -/

/-- Total word count of the working chunk (sum over its member segments). -/
def sumW (W : Char → Bool) (cur : List CSeg) : Nat :=
  (cur.map (fun s => countWords W s.text)).sum

/-- Largest single-segment word count inside the working chunk. -/
def maxW (W : Char → Bool) (cur : List CSeg) : Nat :=
  (cur.map (fun s => countWords W s.text)).foldr max 0

/-- Largest word count among the original segments named by a chunk's
`segment_indices`. -/
def maxIdxWords (W : Char → Bool) (segs : List Segment) (idxs : List Nat) : Nat :=
  (idxs.map (fun i => countWords W ((segs.getD i default).text))).foldr max 0

/-- A concrete deterministic embedding model used by witnesses. -/
def wModel (s : String) : List Rat := [(s.length : Rat)]

/-- Concrete documents used by the C4 witness. -/
def wDocs : List String := ["a", "bb", "ccc"]

/-- A concrete nearest-neighbour oracle used by witnesses. -/
def wQueryFn : String → Nat → List Hit :=
  fun _ _ => [⟨"d1", 0, 1, 1/2⟩, ⟨"d2", 1, 2, 3/2⟩, ⟨"d3", 2, 3, 0⟩]

/-! ## Word-count lemmas -/

theorem wordChar_not_ws (c : Char) (h : pyWs c = true) : wordChar c = false := by
  simp only [pyWs, Bool.or_eq_true, beq_iff_eq] at h
  rcases h with ((((h | h) | h) | h) | h) | h <;> subst h <;> decide

theorem countWordsAux_all_nonword (W : Char → Bool) (l : List Char)
    (h : ∀ c ∈ l, W c = false) : ∀ p : Bool, countWordsAux W l p = 0 := by
  induction l with
  | nil => intro p; rfl
  | cons c rest ih =>
    intro p
    have hc : W c = false := h c (by simp)
    simp [countWordsAux, hc, ih (fun d hd => h d (by simp [hd]))]

theorem countWordsAux_append_nonword (W : Char → Bool) (j : List Char)
    (hj : ∀ c ∈ j, W c = false) (l : List Char) (p : Bool) :
    countWordsAux W (l ++ j) p = countWordsAux W l p := by
  induction l generalizing p with
  | nil => simpa [countWordsAux] using countWordsAux_all_nonword W j hj p
  | cons c rest ih => simp [countWordsAux, ih]

theorem countWordsAux_nonword_front (W : Char → Bool) :
    ∀ j : List Char, (∀ c ∈ j, W c = false) →
      ∀ l : List Char, countWordsAux W (j ++ l) false = countWordsAux W l false := by
  intro j
  induction j with
  | nil => intro _ l; rfl
  | cons c rest ih =>
    intro hj l
    have hc : W c = false := hj c (by simp)
    simp only [List.cons_append, countWordsAux, hc]
    simpa using ih (fun d hd => hj d (by simp [hd])) l

theorem countWordsAux_dropTrailingWs (W : Char → Bool)
    (hW : ∀ c, pyWs c = true → W c = false) (l : List Char) :
    countWordsAux W (dropTrailingWs l) false = countWordsAux W l false := by
  have hdecomp : dropTrailingWs l ++ (l.reverse.takeWhile pyWs).reverse = l := by
    rw [dropTrailingWs, ← List.reverse_append, List.takeWhile_append_dropWhile,
      List.reverse_reverse]
  conv_rhs => rw [← hdecomp]
  rw [countWordsAux_append_nonword W _
    (fun c hc => hW c (List.mem_takeWhile_imp (List.mem_reverse.mp hc)))]

theorem countWords_pyStrip (W : Char → Bool)
    (hW : ∀ c, pyWs c = true → W c = false) (s : String) :
    countWords W (pyStrip s) = countWords W s := by
  show countWordsAux W (dropTrailingWs (s.data.dropWhile pyWs)) false
      = countWordsAux W s.data false
  rw [countWordsAux_dropTrailingWs W hW]
  conv_rhs => rw [← List.takeWhile_append_dropWhile pyWs s.data]
  rw [countWordsAux_nonword_front W _ (fun c hc => hW c (List.mem_takeWhile_imp hc))]

theorem countWordsAux_space (W : Char → Bool) (hsp : W ' ' = false)
    (l1 l2 : List Char) (p : Bool) :
    countWordsAux W (l1 ++ ' ' :: l2) p
      = countWordsAux W l1 p + countWordsAux W l2 false := by
  induction l1 generalizing p with
  | nil => simp [countWordsAux, hsp]
  | cons c rest ih => simp [countWordsAux, ih, Nat.add_assoc]

theorem countWords_append_space (W : Char → Bool) (hsp : W ' ' = false)
    (a b : String) : countWords W (a ++ " " ++ b) = countWords W a + countWords W b := by
  show countWordsAux W ((a ++ " " ++ b).data) false = _
  rw [String.data_append, String.data_append]
  have h : (a.data ++ " ".data) ++ b.data = a.data ++ ' ' :: b.data := by
    simp [List.append_assoc]
  rw [h, countWordsAux_space W hsp]
  rfl

theorem countWords_joinSp (W : Char → Bool) (hsp : W ' ' = false) :
    ∀ ts : List String, countWords W (joinSp ts) = (ts.map (countWords W)).sum := by
  intro ts
  induction ts with
  | nil => rfl
  | cons t rest ih =>
    cases rest with
    | nil => simp [joinSp]
    | cons u rs =>
      show countWords W (t ++ " " ++ joinSp (u :: rs)) = _
      rw [countWords_append_space W hsp, ih]
      simp

/-! ## Claim C1 -/

/-- C1: for the scenario segments `[{0,5,"hello world"}, {5,10,""},
{10,15,"test"}]` with chunk size 100 (overlap 50), `chunk_segments` returns
exactly one chunk with text "hello world test", start_time 0, end_time 15
and segment_indices `[0, 2]` — the empty-text segment is skipped and its
index excluded. -/
theorem claim_C1 :
    chunkSegments wordChar 100 50 scenarioSegs =
      [{ text := "hello world test", start_time := 0, end_time := 15,
         segment_indices := [0, 2] }] := by
  decide

/-- C2 counterexample: with chunk size 10 and overlap 5, the middle chunk
produced from segments of 5, 5, 6 and 1 words covers segment indices
`[1, 2]`, has 11 words (strictly more than the chunk size), yet each of its
member segments has at most 10 words — so it is not covered by the
single-oversized-segment exception the claim allows. -/
theorem claim_C2_counterexample :
    ((chunkSegments wordChar 10 5 cexSegs).getD 1 default).segment_indices = [1, 2] ∧
    countWords wordChar ((chunkSegments wordChar 10 5 cexSegs).getD 1 default).text = 11 ∧
    countWords wordChar ((cexSegs.getD 1 default).text) ≤ 10 ∧
    countWords wordChar ((cexSegs.getD 2 default).text) ≤ 10 := by
  decide

/-! ## Chunk-size invariant for `chunk_segments` (claim C2) -/

theorem le_foldr_max {α : Type} (f : α → Nat) (l : List α) (a : α) (ha : a ∈ l) :
    f a ≤ (l.map f).foldr max 0 := by
  induction l with
  | nil => cases ha
  | cons b rest ih =>
    rcases List.mem_cons.mp ha with h | h
    · subst h
      simpa using Nat.le_max_left (f a) ((rest.map f).foldr max 0)
    · calc f a ≤ (rest.map f).foldr max 0 := ih h
        _ ≤ max (f b) ((rest.map f).foldr max 0) := Nat.le_max_right _ _
        _ = ((b :: rest).map f).foldr max 0 := by simp

theorem sumW_append (W : Char → Bool) (a b : List CSeg) :
    sumW W (a ++ b) = sumW W a + sumW W b := by
  simp [sumW]

theorem overlapGo_mem (W : Char → Bool) (ov : Nat) :
    ∀ (rl : List CSeg) (ow : Nat) (acc : List CSeg) (s : CSeg),
      s ∈ overlapGo W ov rl ow acc → s ∈ rl ∨ s ∈ acc := by
  intro rl
  induction rl with
  | nil => intro ow acc s h; exact Or.inr h
  | cons t rest ih =>
    intro ow acc s h
    simp only [overlapGo] at h
    split_ifs at h with hc
    · rcases ih _ _ _ h with h2 | h2
      · exact Or.inl (List.mem_cons_of_mem t h2)
      · rcases List.mem_cons.mp h2 with h3 | h3
        · exact Or.inl (h3 ▸ List.mem_cons_self t rest)
        · exact Or.inr h3
    · exact Or.inr h

theorem overlapGo_sum (W : Char → Bool) (ov : Nat) :
    ∀ (rl : List CSeg) (ow : Nat) (acc : List CSeg),
      ow = sumW W acc → ow ≤ ov → sumW W (overlapGo W ov rl ow acc) ≤ ov := by
  intro rl
  induction rl with
  | nil => intro ow acc h1 h2; simpa [overlapGo, ← h1] using h2
  | cons t rest ih =>
    intro ow acc h1 h2
    simp only [overlapGo]
    split_ifs with hc
    · have hsum : sumW W (t :: acc) = countWords W t.text + sumW W acc := by
        simp [sumW]
      exact ih _ _ (by rw [hsum, ← h1, Nat.add_comm]) hc
    · simpa [← h1] using h2

theorem getOverlapSegments_mem (W : Char → Bool) (ov : Nat) (cur : List CSeg)
    (s : CSeg) (h : s ∈ getOverlapSegments W ov cur) : s ∈ cur := by
  rcases overlapGo_mem W ov cur.reverse 0 [] s h with h2 | h2
  · exact List.mem_reverse.mp h2
  · cases h2

theorem sumW_getOverlap_le (W : Char → Bool) (ov : Nat) (cur : List CSeg) :
    sumW W (getOverlapSegments W ov cur) ≤ ov :=
  overlapGo_sum W ov cur.reverse 0 [] rfl (Nat.zero_le ov)

theorem getD_of_mem_enum (l : List Segment) (p : Nat × Segment)
    (h : p ∈ l.enum) : l.getD p.1 default = p.2 := by
  have h2 : l[p.1]? = some p.2 := List.mem_enum_iff_getElem?.mp h
  rw [List.getD_eq_getElem?_getD, h2]
  rfl

theorem createChunk_measure (W : Char → Bool)
    (hW : ∀ c, pyWs c = true → W c = false) (segs : List Segment)
    (cur : List CSeg)
    (hgood : ∀ s ∈ cur, s.text = pyStrip ((segs.getD s.index default).text)) :
    countWords W (createChunk cur).text = sumW W cur ∧
    maxIdxWords W segs (createChunk cur).segment_indices = maxW W cur := by
  constructor
  · show countWords W (joinSp (cur.map CSeg.text)) = sumW W cur
    rw [countWords_joinSp W (hW ' ' (by decide))]
    simp [sumW, List.map_map]
    rfl
  · show maxIdxWords W segs (cur.map CSeg.index) = maxW W cur
    unfold maxIdxWords maxW
    rw [List.map_map]
    congr 1
    apply List.map_congr_left
    intro s hs
    show countWords W ((segs.getD s.index default).text) = countWords W s.text
    rw [hgood s hs, countWords_pyStrip W hW]

theorem chunkLoop_bound (W : Char → Bool)
    (hW : ∀ c, pyWs c = true → W c = false) (cs ov : Nat) (segs : List Segment) :
    ∀ (pending : List (Nat × Segment)) (cur : List CSeg) (cw : Nat),
      (∀ p ∈ pending, segs.getD p.1 default = p.2) →
      (∀ s ∈ cur, s.text = pyStrip ((segs.getD s.index default).text)) →
      cw = sumW W cur →
      (cur = [] ∨ sumW W cur ≤ max cs (ov + maxW W cur)) →
      ∀ c ∈ chunkLoop W cs ov segs pending cur cw,
        countWords W c.text ≤ max cs (ov + maxIdxWords W segs c.segment_indices) := by
  intro pending
  induction pending with
  | nil =>
    intro cur cw hpend hgood hcw hbound c hc
    simp only [chunkLoop] at hc
    split_ifs at hc with hemp
    · cases hc
    · have hcur : cur ≠ [] := fun h => hemp (by simp [h])
      rcases List.mem_singleton.mp hc with rfl
      obtain ⟨h1, h2⟩ := createChunk_measure W hW segs cur hgood
      rw [h1, h2]
      rcases hbound with h | h
      · exact absurd h hcur
      · exact h
  | cons p rest ih =>
    obtain ⟨i, seg⟩ := p
    intro cur cw hpend hgood hcw hbound c hc
    have hseg : segs.getD i default = seg := hpend (i, seg) (by simp)
    have hpend2 : ∀ q ∈ rest, segs.getD q.1 default = q.2 :=
      fun q hq => hpend q (List.mem_cons_of_mem _ hq)
    simp only [chunkLoop] at hc
    by_cases hst : pyStrip seg.text = ""
    · rw [if_pos hst] at hc
      exact ih cur cw hpend2 hgood hcw hbound c hc
    · rw [if_neg hst] at hc
      by_cases hfin : cs < cw + countWords W (pyStrip seg.text) ∧ ¬ cur.isEmpty
      · rw [if_pos hfin] at hc
        rcases List.mem_cons.mp hc with rfl | hc2
        · have hcur : cur ≠ [] := fun h => hfin.2 (by simp [h])
          obtain ⟨h1, h2⟩ := createChunk_measure W hW segs cur hgood
          rw [h1, h2]
          rcases hbound with h | h
          · exact absurd h hcur
          · exact h
        · have hgood2 : ∀ s ∈ getOverlapSegments W ov cur ++
              [(⟨i, pyStrip seg.text, seg.start, seg.stop⟩ : CSeg)],
              s.text = pyStrip ((segs.getD s.index default).text) := by
            intro s hs
            rcases List.mem_append.mp hs with hs2 | hs2
            · exact hgood s (getOverlapSegments_mem W ov cur s hs2)
            · rcases List.mem_singleton.mp hs2 with rfl
              show pyStrip seg.text = pyStrip ((segs.getD i default).text)
              rw [hseg]
          have hcwq : ((getOverlapSegments W ov cur).map
                (fun s => countWords W ((segs.getD s.index default).text))).sum
              = sumW W (getOverlapSegments W ov cur) := by
            unfold sumW
            congr 1
            apply List.map_congr_left
            intro s hs
            rw [hgood s (getOverlapSegments_mem W ov cur s hs),
              countWords_pyStrip W hW]
          have hsumsingle : sumW W [(⟨i, pyStrip seg.text, seg.start, seg.stop⟩ : CSeg)]
              = countWords W (pyStrip seg.text) := by
            simp [sumW]
          have hcw2 : ((getOverlapSegments W ov cur).map
                (fun s => countWords W ((segs.getD s.index default).text))).sum
                + countWords W (pyStrip seg.text)
              = sumW W (getOverlapSegments W ov cur ++
                  [(⟨i, pyStrip seg.text, seg.start, seg.stop⟩ : CSeg)]) := by
            rw [sumW_append, hcwq, hsumsingle]
          have hmaxmem : countWords W (pyStrip seg.text)
              ≤ maxW W (getOverlapSegments W ov cur ++
                  [(⟨i, pyStrip seg.text, seg.start, seg.stop⟩ : CSeg)]) := by
            have := le_foldr_max (fun s => countWords W s.text)
              (getOverlapSegments W ov cur ++
                [(⟨i, pyStrip seg.text, seg.start, seg.stop⟩ : CSeg)])
              ⟨i, pyStrip seg.text, seg.start, seg.stop⟩ (by simp)
            simpa [maxW] using this
          have hbound2 : sumW W (getOverlapSegments W ov cur ++
                [(⟨i, pyStrip seg.text, seg.start, seg.stop⟩ : CSeg)])
              ≤ max cs (ov + maxW W (getOverlapSegments W ov cur ++
                [(⟨i, pyStrip seg.text, seg.start, seg.stop⟩ : CSeg)])) := by
            calc sumW W (getOverlapSegments W ov cur ++ _)
                = sumW W (getOverlapSegments W ov cur)
                  + countWords W (pyStrip seg.text) := by rw [sumW_append, hsumsingle]
              _ ≤ ov + countWords W (pyStrip seg.text) :=
                  Nat.add_le_add_right (sumW_getOverlap_le W ov cur) _
              _ ≤ ov + maxW W (getOverlapSegments W ov cur ++ _) :=
                  Nat.add_le_add_left hmaxmem ov
              _ ≤ max cs (ov + maxW W (getOverlapSegments W ov cur ++ _)) :=
                  Nat.le_max_right _ _
          exact ih _ _ hpend2 hgood2 hcw2 (Or.inr hbound2) c hc2
      · rw [if_neg hfin] at hc
        have hgood2 : ∀ s ∈ cur ++ [(⟨i, pyStrip seg.text, seg.start, seg.stop⟩ : CSeg)],
            s.text = pyStrip ((segs.getD s.index default).text) := by
          intro s hs
          rcases List.mem_append.mp hs with hs2 | hs2
          · exact hgood s hs2
          · rcases List.mem_singleton.mp hs2 with rfl
            show pyStrip seg.text = pyStrip ((segs.getD i default).text)
            rw [hseg]
        have hcw2 : cw + countWords W (pyStrip seg.text)
            = sumW W (cur ++ [(⟨i, pyStrip seg.text, seg.start, seg.stop⟩ : CSeg)]) := by
          rw [sumW_append, hcw]
          simp [sumW]
        have hbound2 : sumW W (cur ++ [(⟨i, pyStrip seg.text, seg.start, seg.stop⟩ : CSeg)])
            ≤ max cs (ov + maxW W (cur ++
                [(⟨i, pyStrip seg.text, seg.start, seg.stop⟩ : CSeg)])) := by
          by_cases hemp : cur.isEmpty
          · have hnil : cur = [] := by simpa [List.isEmpty_iff] using hemp
            subst hnil
            have hmaxs : countWords W (pyStrip seg.text)
                ≤ maxW W ([] ++ [(⟨i, pyStrip seg.text, seg.start, seg.stop⟩ : CSeg)]) := by
              simpa [maxW] using
                Nat.le_max_left (countWords W (pyStrip seg.text)) 0
            calc sumW W ([] ++ [(⟨i, pyStrip seg.text, seg.start, seg.stop⟩ : CSeg)])
                = countWords W (pyStrip seg.text) := by simp [sumW]
              _ ≤ ov + maxW W ([] ++ [(⟨i, pyStrip seg.text, seg.start, seg.stop⟩ : CSeg)]) :=
                  le_trans hmaxs (Nat.le_add_left _ ov)
              _ ≤ max cs _ := Nat.le_max_right _ _
          · have hA : ¬ cs < cw + countWords W (pyStrip seg.text) :=
              fun h => hfin ⟨h, hemp⟩
            calc sumW W (cur ++ [(⟨i, pyStrip seg.text, seg.start, seg.stop⟩ : CSeg)])
                = cw + countWords W (pyStrip seg.text) := hcw2.symm
              _ ≤ cs := Nat.not_lt.mp hA
              _ ≤ max cs _ := Nat.le_max_left _ _
        exact ih _ _ hpend2 hgood2 hcw2 (Or.inr hbound2) c hc

theorem chunkLoop_ne_nil (W : Char → Bool) (cs ov : Nat) (segs : List Segment) :
    ∀ (pending : List (Nat × Segment)) (cur : List CSeg) (cw : Nat),
      ((∃ p ∈ pending, pyStrip p.2.text ≠ "") ∨ cur ≠ []) →
      chunkLoop W cs ov segs pending cur cw ≠ [] := by
  intro pending
  induction pending with
  | nil =>
    intro cur cw h
    rcases h with ⟨p, hp, _⟩ | h
    · cases hp
    · simp only [chunkLoop]
      rw [if_neg (fun he => h (by simpa [List.isEmpty_iff] using he))]
      simp
  | cons p rest ih =>
    obtain ⟨i, seg⟩ := p
    intro cur cw h
    simp only [chunkLoop]
    by_cases hst : pyStrip seg.text = ""
    · rw [if_pos hst]
      apply ih
      rcases h with ⟨q, hq, hqne⟩ | hcur
      · rcases List.mem_cons.mp hq with rfl | hq2
        · exact absurd hst hqne
        · exact Or.inl ⟨q, hq2, hqne⟩
      · exact Or.inr hcur
    · rw [if_neg hst]
      by_cases hfin : cs < cw + countWords W (pyStrip seg.text) ∧ ¬ cur.isEmpty
      · rw [if_pos hfin]
        simp
      · rw [if_neg hfin]
        apply ih
        exact Or.inr (by simp)

/-- C2 (amended): for every non-empty segment list, chunk size > 0 and
overlap ≥ 0, every chunk emitted by `chunk_segments` has word count at most
`max chunkSize (overlap + m)`, where `m` is the largest single-segment word
count among the chunk's member segments — i.e. the nominal size can be
exceeded not only by a single oversized segment but also by the overlap
seed carried over from the previous chunk; and the final partially-built
chunk is always emitted (the output is non-empty whenever some segment has
non-empty trimmed text). Stated for any word-character class `W` disjoint
from whitespace (which covers the Unicode `\w` class). -/
theorem claim_C2 (W : Char → Bool) (hW : ∀ c, pyWs c = true → W c = false)
    (cs ov : Nat) (hcs : 0 < cs) (segs : List Segment) (hne : segs ≠ []) :
    (∀ c ∈ chunkSegments W cs ov segs,
        countWords W c.text ≤ max cs (ov + maxIdxWords W segs c.segment_indices)) ∧
    ((∃ s ∈ segs, pyStrip s.text ≠ "") → chunkSegments W cs ov segs ≠ []) := by
  constructor
  · intro c hc
    have hne2 : ¬ segs.isEmpty := fun he => hne (by simpa [List.isEmpty_iff] using he)
    rw [chunkSegments, if_neg hne2] at hc
    exact chunkLoop_bound W hW cs ov segs segs.enum [] 0
      (fun p hp => getD_of_mem_enum segs p hp) (by simp) (by simp [sumW])
      (Or.inl rfl) c hc
  · rintro ⟨s, hs, hsne⟩
    have hne2 : ¬ segs.isEmpty := fun he => hne (by simpa [List.isEmpty_iff] using he)
    rw [chunkSegments, if_neg hne2]
    apply chunkLoop_ne_nil
    left
    rcases List.mem_iff_getElem?.mp hs with ⟨j, hj⟩
    exact ⟨(j, s), List.mem_enum_iff_getElem?.mpr hj, hsne⟩

/-- Witness for C2 at chunk size 10, overlap 5 and the concrete
counterexample segments (hypotheses discharged at concrete values). -/
theorem claim_C2_witness :
    (∀ c, pyWs c = true → wordChar c = false) ∧ 0 < 10 ∧ cexSegs ≠ [] ∧
    ((∀ c ∈ chunkSegments wordChar 10 5 cexSegs,
        countWords wordChar c.text
          ≤ max 10 (5 + maxIdxWords wordChar cexSegs c.segment_indices)) ∧
     ((∃ s ∈ cexSegs, pyStrip s.text ≠ "") → chunkSegments wordChar 10 5 cexSegs ≠ [])) :=
  ⟨wordChar_not_ws, by decide, by decide,
    claim_C2 wordChar wordChar_not_ws 10 5 (by decide) cexSegs (by decide)⟩

/-! ## Claim C9: the plain-text chunker -/

/-- C9 counterexample: with `chunk_size = 3` as the limit (and overlap 1),
`chunk_text` returns the single-sentence text "aa bb cc dd." as one whole
chunk of 12 characters — the output is neither bounded by the limit in
characters nor hard-sliced, because the code bounds chunks by word count
and never splits a sentence. -/
theorem claim_C9_counterexample :
    chunkText wordChar 3 1 "aa bb cc dd." true = ["aa bb cc dd."] ∧
    ¬ ("aa bb cc dd.".length ≤ 3) := by
  decide

/-- C9 (amended): `chunk_text` with `preserve_sentences` splits on
sentence-ending punctuation followed by whitespace and coalesces sentences
under a budget counted in words (`chunk_size`), not characters; a text that
forms a single sentence is returned whole as exactly one chunk, regardless
of its length — no character-based slicing ever happens. -/
theorem claim_C9 (W : Char → Bool) (cs ov : Nat) (text : String)
    (hne : text ≠ "") (hone : splitSentences text = [text]) :
    chunkText W cs ov text true = [text] := by
  rw [chunkText, if_neg hne, if_pos rfl, hone]
  simp [chunkTextGo, joinSp]

/-- Witness for C9 at the single-sentence text "hello". -/
theorem claim_C9_witness :
    "hello" ≠ "" ∧ splitSentences "hello" = ["hello"] ∧
    chunkText wordChar 400 50 "hello" true = ["hello"] :=
  ⟨by decide, by decide, claim_C9 wordChar 400 50 "hello" (by decide) (by decide)⟩

/-! ## Claim C4: batching of `embed_documents` -/

theorem embed_eq_map (model : String → List Rat) (texts : List String) :
    embed model texts = texts.map model := by
  rw [embed]
  split_ifs with h
  · rw [List.isEmpty_iff.mp h]
    rfl
  · rfl

theorem embedDocsGo_eq_map (model : String → List Rat) (k : Nat) :
    ∀ (n : Nat) (l : List String), l.length ≤ n →
      embedDocsGo model k l = l.map model := by
  intro n
  induction n with
  | zero =>
    intro l hl
    have h0 : l = [] := List.eq_nil_of_length_eq_zero (Nat.le_zero.mp hl)
    subst h0
    rw [embedDocsGo]
    rfl
  | succ n ih =>
    intro l hl
    cases l with
    | nil =>
      rw [embedDocsGo]
      rfl
    | cons d ds =>
      rw [embedDocsGo, embed_eq_map,
        ih (ds.drop k) (by simp only [List.length_drop]; simp at hl; omega),
        ← List.map_append]
      rw [show (d :: ds.take k) ++ ds.drop k = d :: ds by
        rw [List.cons_append, List.take_append_drop]]

/-- C4: for every deterministic pointwise embedding model, batch size > 0
and document list (empty strings included), `embed_documents` succeeds and
returns exactly the result of a single unbatched `embed` call on the whole
list — batching neither reorders nor drops documents, and the result length
equals the input length. -/
theorem claim_C4 (model : String → List Rat) (batchSize : Nat)
    (hbs : 0 < batchSize) (docs : List String) :
    embedDocuments model batchSize docs = Except.ok (embedUnbatched model docs) ∧
    (embedUnbatched model docs).length = docs.length := by
  constructor
  · rw [embedDocuments, if_neg (Nat.pos_iff_ne_zero.mp hbs)]
    rw [embedDocsGo_eq_map model (batchSize - 1) docs.length docs le_rfl]
    rw [embedUnbatched, embed_eq_map]
  · rw [embedUnbatched, embed_eq_map]
    exact List.length_map docs model

/-- Witness for C4 at batch size 2 and three concrete documents. -/
theorem claim_C4_witness :
    0 < 2 ∧
    (embedDocuments wModel 2 wDocs = Except.ok (embedUnbatched wModel wDocs) ∧
     (embedUnbatched wModel wDocs).length = wDocs.length) :=
  ⟨by decide, claim_C4 wModel 2 (by decide) wDocs⟩

/-! ## Claim C3: score thresholding and ordering of `search` -/

theorem mem_insertDesc (x a : ScoredChunk) (l : List ScoredChunk) :
    a ∈ insertDesc x l ↔ a = x ∨ a ∈ l := by
  induction l with
  | nil => simp [insertDesc]
  | cons y ys ih =>
    simp only [insertDesc]
    split_ifs with h
    · simp [List.mem_cons]
    · simp [List.mem_cons, ih]
      tauto

theorem mem_sortDesc (a : ScoredChunk) (l : List ScoredChunk) :
    a ∈ sortDesc l ↔ a ∈ l := by
  induction l with
  | nil => simp [sortDesc]
  | cons x xs ih =>
    simp [sortDesc, mem_insertDesc, ih]

theorem pairwise_insertDesc (x : ScoredChunk) (l : List ScoredChunk)
    (h : List.Pairwise (fun a b => b.score ≤ a.score) l) :
    List.Pairwise (fun a b => b.score ≤ a.score) (insertDesc x l) := by
  induction l with
  | nil => simp [insertDesc]
  | cons y ys ih =>
    rcases List.pairwise_cons.mp h with ⟨hy, hys⟩
    simp only [insertDesc]
    split_ifs with hxy
    · refine List.pairwise_cons.mpr ⟨?_, h⟩
      intro z hz
      rcases List.mem_cons.mp hz with rfl | hz2
      · exact hxy
      · exact le_trans (hy z hz2) hxy
    · refine List.pairwise_cons.mpr ⟨?_, ih hys⟩
      intro z hz
      rcases (mem_insertDesc x z ys).mp hz with rfl | hz2
      · exact le_of_not_le hxy
      · exact hy z hz2

theorem sortDesc_pairwise (l : List ScoredChunk) :
    List.Pairwise (fun a b => b.score ≤ a.score) (sortDesc l) := by
  induction l with
  | nil => simp [sortDesc]
  | cons x xs ih => exact pairwise_insertDesc x (sortDesc xs) ih

/-- C3: for every collection store, query oracle, lecture id, query, topK
and minScore, every result `search` returns comes from a hit of the
lecture's collection whose score `1 - distance/2` is at least `minScore`
(the stored score field being that score rounded to 3 decimals), the
returned list is sorted by score descending, and a missing collection
(lecture never indexed) yields the empty list rather than an error. -/
theorem claim_C3 (colls : List String) (queryFn : String → Nat → List Hit)
    (lectureId query : String) (topK : Nat) (minScore : Rat) :
    (∀ r ∈ (searchE colls queryFn lectureId query topK minScore).1,
        ∃ h ∈ queryFn (collectionName lectureId) topK,
          minScore ≤ 1 - h.dist / 2 ∧ r.score = round3 (1 - h.dist / 2)) ∧
    List.Pairwise (fun a b => b.score ≤ a.score)
      (searchE colls queryFn lectureId query topK minScore).1 ∧
    (collectionName lectureId ∉ colls →
      (searchE colls queryFn lectureId query topK minScore).1 = []) := by
  by_cases hmem : collectionName lectureId ∈ colls
  · simp only [searchE, if_pos hmem]
    refine ⟨?_, sortDesc_pairwise _, fun hn => absurd hmem hn⟩
    intro r hr
    have hr2 : r ∈ (queryFn (collectionName lectureId) topK).filterMap
        (scoreHit minScore) := (mem_sortDesc r _).mp hr
    rcases List.mem_filterMap.mp hr2 with ⟨h, hh, hsc⟩
    rw [scoreHit] at hsc
    split_ifs at hsc with hth
    cases hsc
    exact ⟨h, hh, hth, rfl⟩
  · simp [searchE, hmem]

/-- Witness for C3 at a concrete store and query oracle. -/
theorem claim_C3_witness :
    (∀ r ∈ (searchE ["lecture_x"] wQueryFn "x" "q" 5 (3/10)).1,
        ∃ h ∈ wQueryFn (collectionName "x") 5,
          (3 : Rat)/10 ≤ 1 - h.dist / 2 ∧ r.score = round3 (1 - h.dist / 2)) ∧
    List.Pairwise (fun a b => b.score ≤ a.score)
      (searchE ["lecture_x"] wQueryFn "x" "q" 5 (3/10)).1 ∧
    (collectionName "x" ∉ ["lecture_x"] →
      (searchE ["lecture_x"] wQueryFn "x" "q" 5 (3/10)).1 = []) :=
  claim_C3 ["lecture_x"] wQueryFn "x" "q" 5 (3/10)

/-! ## Claim C8: idempotent deletion -/

/-- C8: deleting a lecture twice never raises: the first `delete_lecture`
returns true exactly when the collection existed (dropping it), and the
second always returns false (not-found semantics) — deletion is an
idempotent no-op on an absent collection. The `ValueError` the vector
database raises for a missing collection is caught inside `delete_lecture`,
which is total here. -/
theorem claim_C8 (colls : List String) (hnd : colls.Nodup) (lectureId : String) :
    ((deleteLecture colls lectureId).1 = true ↔ collectionName lectureId ∈ colls) ∧
    (deleteLecture (deleteLecture colls lectureId).2 lectureId).1 = false := by
  by_cases hm : collectionName lectureId ∈ colls
  · have hout : collectionName lectureId ∉ colls.erase (collectionName lectureId) :=
      fun h => ((List.Nodup.mem_erase_iff hnd).mp h).1 rfl
    rw [deleteLecture]
    rw [if_pos hm]
    constructor
    · simp [hm]
    · rw [deleteLecture]
      simp [hout]
  · rw [deleteLecture, if_neg hm]
    constructor
    · simp [hm]
    · rw [deleteLecture, if_neg hm]

/-- Witness for C8 at a concrete one-collection store. -/
theorem claim_C8_witness :
    (["lecture_abc"] : List String).Nodup ∧
    (((deleteLecture ["lecture_abc"] "abc").1 = true ↔
        collectionName "abc" ∈ ["lecture_abc"]) ∧
     (deleteLecture (deleteLecture ["lecture_abc"] "abc").2 "abc").1 = false) :=
  ⟨by decide, claim_C8 ["lecture_abc"] (by decide) "abc"⟩

/-! ## Claim C10: the empty-input guard of `search_all_lectures` -/

/-- C10: `search_all_lectures` returns the empty list as soon as the
lecture-id list is empty or the query is empty/whitespace-only, with an
empty effect log — the query is not embedded and no collection is probed;
the single-lecture `search` has no such guard: whenever the collection
exists it embeds the query, even a whitespace-only one. -/
theorem claim_C10 (colls : List String) (queryFn : String → Nat → List Hit) :
    (∀ (lectureIds : List String) (query : String) (topK : Nat) (minScore : Rat),
        lectureIds = [] ∨ pyStrip query = "" →
        searchAllE colls queryFn lectureIds query topK minScore = ([], [])) ∧
    (∀ (lectureId query : String) (topK : Nat) (minScore : Rat),
        collectionName lectureId ∈ colls →
        Effect.embedQ query ∈ (searchE colls queryFn lectureId query topK minScore).2) := by
  constructor
  · intro ids q tk ms hg
    rcases hg with rfl | hq
    · simp [searchAllE]
    · simp [searchAllE, hq]
  · intro lid q tk ms hm
    simp [searchE, hm]

/-- Witness for C10: the guard fires on an empty lecture list, and `search`
embeds a whitespace-only query when the collection exists. -/
theorem claim_C10_witness :
    searchAllE ["lecture_x"] wQueryFn [] "q" 5 0 = ([], []) ∧
    (collectionName "x" ∈ ["lecture_x"] ∧
     Effect.embedQ " " ∈ (searchE ["lecture_x"] wQueryFn "x" " " 5 0).2) :=
  ⟨(claim_C10 ["lecture_x"] wQueryFn).1 [] "q" 5 0 (Or.inl rfl),
   by decide, (claim_C10 ["lecture_x"] wQueryFn).2 "x" " " 5 0 (by decide)⟩

/-! ## Substring lemmas -/

theorem leadMatch_self : ∀ l : List Char, leadMatch l l = true := by
  intro l
  induction l with
  | nil => rfl
  | cons c rest ih => simp [leadMatch, ih]

theorem hasSub_append_self : ∀ p n : List Char, hasSub n (p ++ n) = true := by
  intro p
  induction p with
  | nil =>
    intro n
    cases n with
    | nil => rfl
    | cons c rest => simp [hasSub, leadMatch_self]
  | cons c cp ih =>
    intro n
    simp [hasSub, ih n]

theorem containsSub_append (pre s : String) : containsSub s (pre ++ s) = true := by
  rw [containsSub, String.data_append]
  exact hasSub_append_self pre.data s.data

/-! ## Claim C5: error propagation out of the background task -/

/-- C5 counterexample: when transcription and transcript persistence
succeed but the post-completion `index_lecture` call raises, the exception
escapes `process_lecture_transcription` (the call sits outside the
`try`/`except`), with the lecture already marked completed — so it is not
true that every pipeline error is caught inside the task. -/
theorem claim_C5_counterexample :
    (processLecture envIndexFail pendingLecture).2 = some "index boom" ∧
    (processLecture envIndexFail pendingLecture).1.status = "completed" :=
  ⟨rfl, rfl⟩

/-- C5 (amended): every error of the transcription step — timeout or any
other exception — is caught inside the background task and converted into
status `failed` with a stored error message, and nothing escapes; an
exception can escape the task only when transcription succeeded and either
the transcript-persistence step or the post-completion indexing step
raised it. -/
theorem claim_C5 (env : PipelineEnv) (st : LectureState) :
    ((env.transcribe = TrOutcome.timeout ∨ ∃ e, env.transcribe = TrOutcome.failed e) →
      (processLecture env st).2 = none ∧
      (processLecture env st).1.status = "failed" ∧
      (processLecture env st).1.error ≠ none) ∧
    (∀ e, (processLecture env st).2 = some e →
      (∃ segs lang dur, env.transcribe = TrOutcome.success segs lang dur) ∧
      (env.save = Except.error e ∨ env.index = Except.error e)) := by
  obtain ⟨tr, sv, ix⟩ := env
  constructor
  · rintro (htr | ⟨e, htr⟩) <;> (simp only at htr; subst htr; simp [processLecture])
  · intro e he
    cases tr with
    | timeout => simp [processLecture] at he
    | failed msg => simp [processLecture] at he
    | success segs lang dur =>
      cases sv with
      | error e2 =>
        simp only [processLecture] at he
        cases he
        exact ⟨⟨segs, lang, dur, rfl⟩, Or.inl rfl⟩
      | ok u =>
        cases ix with
        | error e2 =>
          simp only [processLecture] at he
          cases he
          exact ⟨⟨segs, lang, dur, rfl⟩, Or.inr rfl⟩
        | ok u2 => simp [processLecture] at he

/-- Witness for C5: the timeout case at a concrete environment. -/
theorem claim_C5_witness :
    (processLecture envTimeout pendingLecture).2 = none ∧
    (processLecture envTimeout pendingLecture).1.status = "failed" ∧
    (processLecture envTimeout pendingLecture).1.error ≠ none :=
  (claim_C5 envTimeout pendingLecture).1 (Or.inl rfl)

/-! ## Claim C6: the timeout error message -/

/-- C6 counterexample: on timeout the lecture is marked failed, but the
stored error is the fixed Russian message, which does not contain the
substring "timeout" the claim requires. -/
theorem claim_C6_counterexample :
    (processLecture envTimeout pendingLecture).1.status = "failed" ∧
    (processLecture envTimeout pendingLecture).1.error = some timeoutMsg ∧
    containsSub "timeout" timeoutMsg = false := by
  refine ⟨rfl, rfl, ?_⟩
  decide

/-- C6 (amended): when transcription exceeds the 3-hour hard ceiling
(`timeout=10800.0` seconds), the background task marks the lecture failed
and stores the fixed human-readable Russian message saying the
transcription wait was exceeded (a message that does not contain the
literal substring "timeout"); no transcript is persisted, nothing escapes
the task, and the task returns without retrying. -/
theorem claim_C6 (env : PipelineEnv) (st : LectureState)
    (ht : env.transcribe = TrOutcome.timeout) (hst : st.savedTranscript = none) :
    (processLecture env st).1.status = "failed" ∧
    (processLecture env st).1.error = some timeoutMsg ∧
    (processLecture env st).1.savedTranscript = none ∧
    (processLecture env st).2 = none ∧
    containsSub "timeout" timeoutMsg = false ∧
    transcriptionTimeoutSecs = 3 * 3600 := by
  obtain ⟨tr, sv, ix⟩ := env
  simp only at ht
  subst ht
  refine ⟨rfl, rfl, ?_, rfl, by decide, by norm_num [transcriptionTimeoutSecs]⟩
  simpa [processLecture] using hst

/-- Witness for C6 at the concrete timeout environment. -/
theorem claim_C6_witness :
    envTimeout.transcribe = TrOutcome.timeout ∧
    pendingLecture.savedTranscript = none ∧
    ((processLecture envTimeout pendingLecture).1.status = "failed" ∧
     (processLecture envTimeout pendingLecture).1.error = some timeoutMsg ∧
     (processLecture envTimeout pendingLecture).1.savedTranscript = none ∧
     (processLecture envTimeout pendingLecture).2 = none ∧
     containsSub "timeout" timeoutMsg = false ∧
     transcriptionTimeoutSecs = 3 * 3600) :=
  ⟨rfl, rfl, claim_C6 envTimeout pendingLecture rfl rfl⟩

/-! ## Claim C7: crash recovery of incomplete lectures -/

/-- C7: for every lecture the startup recovery scan finds with status
`pending` or `processing`: a missing audio path (absent or empty, both
falsy in Python) or a path that does not exist on disk makes recovery mark
the lecture failed with an explanatory error (mentioning the missing path
in the not-found case) and never restart transcription for it; otherwise
recovery restarts the transcription step from the beginning; and the scan
does handle every such lecture. -/
theorem claim_C7 (fs : List String) (l : RecLecture)
    (hst : l.status = "pending" ∨ l.status = "processing") :
    (l.audio_path = none →
      recoverOne fs l = RecAction.markFailed "Audio file path missing") ∧
    (∀ p, l.audio_path = some p → p = "" →
      recoverOne fs l = RecAction.markFailed "Audio file path missing") ∧
    (∀ p, l.audio_path = some p → p ≠ "" → p ∉ fs →
      recoverOne fs l = RecAction.markFailed ("Audio file not found: " ++ p) ∧
      containsSub p ("Audio file not found: " ++ p) = true) ∧
    (∀ p, l.audio_path = some p → p ≠ "" → p ∈ fs →
      recoverOne fs l = RecAction.restartTranscription p l.language) ∧
    (∀ e ap lang, recoverOne fs l = RecAction.markFailed e →
      recoverOne fs l ≠ RecAction.restartTranscription ap lang) ∧
    (∀ all, l ∈ all → (l.id, recoverOne fs l) ∈ recoverIncomplete fs all) := by
  refine ⟨?_, ?_, ?_, ?_, ?_, ?_⟩
  · intro hap
    rw [recoverOne, hap]
  · intro p hap hp
    rw [recoverOne, hap]
    simp [hp]
  · intro p hap hp hnm
    simp only [recoverOne, hap]
    rw [if_neg hp, if_neg hnm]
    exact ⟨rfl, containsSub_append "Audio file not found: " p⟩
  · intro p hap hp hm
    simp only [recoverOne, hap]
    rw [if_neg hp, if_pos hm]
  · intro e ap lang hmk hre
    rw [hmk] at hre
    cases hre
  · intro all hall
    apply List.mem_map.mpr
    refine ⟨l, ?_, rfl⟩
    apply List.mem_filter.mpr
    exact ⟨hall, by simp [hst]⟩

/-- Witness for C7 at a concrete processing lecture whose audio file is
gone from disk. -/
theorem claim_C7_witness :
    recoverOne [] ⟨"L1", "processing", some "/a.mp3", none⟩ =
      RecAction.markFailed ("Audio file not found: " ++ "/a.mp3") ∧
    containsSub "/a.mp3" ("Audio file not found: " ++ "/a.mp3") = true :=
  (claim_C7 [] ⟨"L1", "processing", some "/a.mp3", none⟩ (Or.inr rfl)).2.2.1
    "/a.mp3" rfl (by decide) (by simp)

end AiHelp
